import Mathlib

/-!
A shallow embedding of `packages/jsii-rosetta/lib/commands/transliterate.ts`
(the transliteration orchestration pipeline): the data model, the disclaimer
composer `prefixDisclaimer`, the type-doc walker `transliterateType`, the
per-directory loader map `loadAssemblies`, and the orchestrator
`transliterateAssembly`, together with theorems settling the frozen claims.

External collaborators (the `Rosetta` translation engine, snippet
preparation, fixturization, markdown translation) are kept abstract, as the
spec scopes them out; the on-disk world is modelled as an explicit file
system passed through the pipeline, and in-place mutation of loaded
assemblies is modelled by returning the updated value.
-/

namespace Transliterate

/-- Modelled from the spec: `SPEC_FILE_NAME` of the external `@jsii/spec`
package (not under `src/`): the name of the assembly file inside an
assembly directory. -/
def SPEC_FILE_NAME : String := ".jsii"

/-- Modelled from the spec: the `TypeKind.Class` string constant of the
external `@jsii/spec` package ("tagged variant over kinds
\x7bClass, Interface, Enum\x7d"). -/
def TypeKindClass : String := "class"

/-- Modelled from the spec: the `TypeKind.Interface` string constant of the
external `@jsii/spec` package. -/
def TypeKindInterface : String := "interface"

/-- Modelled from the spec: the `TypeKind.Enum` string constant of the
external `@jsii/spec` package. -/
def TypeKindEnum : String := "enum"

/-- A documentation block; the only field the pipeline touches is the
optional `example` snippet text (rewritten in place by translation). -/
structure Docs where
  «example» : Option String := none
deriving DecidableEq, Repr

/-- A method parameter, carrying optional `Docs`. -/
structure Parameter where
  docs : Option Docs := none
deriving DecidableEq, Repr

/-- A method: optional `Docs` plus an optional parameter collection
(`undefined` is distinguished from the empty collection, as in the JSON
source). -/
structure Method where
  docs : Option Docs := none
  parameters : Option (List Parameter) := none
deriving DecidableEq, Repr

/-- A property, carrying optional `Docs`. -/
structure Property where
  docs : Option Docs := none
deriving DecidableEq, Repr

/-- An enum member, carrying optional `Docs`. -/
structure EnumMember where
  docs : Option Docs := none
deriving DecidableEq, Repr

/-- A class initializer, carrying optional `Docs`. -/
structure Initializer where
  docs : Option Docs := none
deriving DecidableEq, Repr

/-- A type of the assembly, as the walker sees it at runtime: a JSON record
with a `kind` string tag and the optional collections of the three kind
variants (absent fields are `none`). -/
structure JsiiType where
  kind : String
  docs : Option Docs := none
  initializer : Option Initializer := none
  methods : Option (List Method) := none
  properties : Option (List Property) := none
  members : Option (List EnumMember) := none
deriving DecidableEq, Repr

/-- The README of an assembly. -/
structure ReadMe where
  markdown : String
deriving DecidableEq, Repr

/-- The assembly document: name, version, optional README, and the mapping
from fully-qualified type name to type (an association list, preserving the
JSON object insertion order as `Object.values` iteration does). -/
structure Assembly where
  name : String := ""
  version : String := ""
  readme : Option ReadMe := none
  types : Option (List (String × JsiiType)) := none
deriving DecidableEq, Repr

/-- A translation result: target language, translated source, and whether
the snippet was confirmed to compile. -/
structure Translation where
  language : String
  source : String
  didCompile : Bool
deriving DecidableEq, Repr

/-- Modelled from the spec: the prepared snippet produced by
`typeScriptSnippetFromSource` of the external snippet module
("parse-snippet(text, identifier, strict flag, parameter map) → prepared
snippet"); the parameter map the orchestrator passes holds exactly the
project directory. -/
structure TypeScriptSnippet where
  source : String
  identifier : String
  strict : Bool
  projectDirectory : String
deriving DecidableEq, Repr

/-- Modelled from the spec: `typeScriptSnippetFromSource` packages its
arguments into a prepared snippet. -/
def typeScriptSnippetFromSource (source identifier : String) (strict : Bool)
    (projectDirectory : String) : TypeScriptSnippet :=
  { source := source, identifier := identifier, strict := strict,
    projectDirectory := projectDirectory }

/-- A JavaScript exception: either an explicit `throw new Error(message)`
or a runtime `TypeError` (such as iterating `undefined`). -/
inductive JsError where
  | thrown (message : String)
  | typeError (message : String)
deriving DecidableEq, Repr

/-- Modelled from the spec: the external collaborator interfaces of §6 —
the `Rosetta` translation engine (translate-snippet, translate-markdown,
has-errors) bundled with the external `fixturize` snippet-preparation hook.
`hasErrors` is the accumulated-diagnostics flag of the engine as the orchestrator
reads it at the end of the run. -/
structure Rosetta where
  fixturize : TypeScriptSnippet → Bool → TypeScriptSnippet
  translateSnippet : TypeScriptSnippet → String → Option Translation
  translateSnippetsInMarkdown :
    String → String → Bool → (Translation → String × String) → String → String
  hasErrors : Bool

/-- The line-comment token selected by the target language (the
`commentToken` closure of `prefixDisclaimer`): `#` for python and ruby,
`//` for every other language, the default fallback included. -/
def commentToken (language : String) : String :=
  match language with
  | "python" => "#"
  | "ruby" => "#"
  | "csharp" => "//"
  | "java" => "//"
  | "go" => "//"
  | _ => "//"

/-- The disclaimer composer `prefixDisclaimer`: prepends a two-line comment
(generation notice whose wording depends on `didCompile`, then a reference
URL), a blank separator line, and the translated source. -/
def prefixDisclaimer (translation : Translation) : String :=
  let comment := commentToken translation.language
  let disclaimer :=
    if translation.didCompile then
      "This example was automatically transliterated."
    else
      "This example was automatically transliterated with incomplete type information. It may not work as-is."
  String.intercalate "\n"
    [ comment ++ " " ++ disclaimer
    , comment ++ " See https://github.com/aws/jsii/issues/826 for more information."
    , ""
    , translation.source ]

/-- The `transliterateDocs` closure of `transliterateType`: when the docs
exist and carry a non-empty example (JS truthiness), prepare the snippet
and ask the engine for a translation; replace the example by the disclaimed
translation when one is returned, leave everything unchanged otherwise. -/
def transliterateDocs (rosetta : Rosetta) (language workingDirectory : String)
    (loose : Bool) (docs : Option Docs) : Option Docs :=
  match docs with
  | none => none
  | some d =>
    match d.«example» with
    | none => some d
    | some ex =>
      if ex = "" then some d
      else
        let snippet := rosetta.fixturize
          (typeScriptSnippetFromSource ex "example" true workingDirectory) loose
        match rosetta.translateSnippet snippet language with
        | none => some d
        | some translation =>
          some { d with «example» := some (prefixDisclaimer translation) }

/-- The shared Interface-style body of the `switch` of the walker (the code
the `Class` case falls through into): translate the docs of every method,
of every method parameter and of every property. -/
def applyInterfaceStyle (td : Option Docs → Option Docs) (t : JsiiType) : JsiiType :=
  { t with
    methods := t.methods.map (List.map fun m =>
      { m with
        docs := td m.docs,
        parameters := m.parameters.map (List.map fun p => { p with docs := td p.docs }) }),
    properties := t.properties.map (List.map fun p => { p with docs := td p.docs }) }

/-- The type-doc walker `transliterateType`. The TS function mutates the
type in place and may throw; here it returns the state of the type object
after the call together with the error, if one was raised (mutations
already performed persist past the throw, as they do on the JS heap):
first the own docs of the type are translated, then the `switch` on `kind`
dispatches — Class translates the initializer docs and falls through into
the Interface-style body; Enum iterates `type.members` (no `?? []` guard:
an absent collection raises a `TypeError`); any other kind throws
`Unsupported type kind`. -/
def transliterateType (rosetta : Rosetta) (language workingDirectory : String)
    (loose : Bool) (t : JsiiType) : JsiiType × Option JsError :=
  let td := transliterateDocs rosetta language workingDirectory loose
  let t := { t with docs := td t.docs }
  if t.kind = TypeKindClass ∨ t.kind = TypeKindInterface then
    let t :=
      if t.kind = TypeKindClass then
        { t with initializer := t.initializer.map fun i => { i with docs := td i.docs } }
      else t
    (applyInterfaceStyle td t, none)
  else if t.kind = TypeKindEnum then
    match t.members with
    | none => (t, some (.typeError "type.members is not iterable"))
    | some ms =>
      ({ t with members := some (ms.map fun m => { m with docs := td m.docs }) }, none)
  else
    (t, some (.thrown ("Unsupported type kind: " ++ t.kind)))

/-- The on-disk world: an association list from path to parsed assembly
document, most recent write first. -/
abbrev Fs := List (String × Assembly)

/-- Read the document at a path (`none` models a missing file, which makes
`readJson` reject with a fatal I/O error). -/
def Fs.read (fs : Fs) (p : String) : Option Assembly :=
  (fs.find? fun e => e.1 == p).map (·.2)

/-- Write (or overwrite) the document at a path, as `writeJson` does. -/
def Fs.write (fs : Fs) (p : String) (a : Assembly) : Fs :=
  (p, a) :: fs

/-- `resolve(directory, name)`: the POSIX join the orchestrator uses for
both the assembly path and the output path. -/
def resolvePath (directory name : String) : String :=
  directory ++ "/" ++ name

/-- The path of the assembly file of a directory, `resolve(directory, SPEC_FILE_NAME)`. -/
def asmPath (directory : String) : String :=
  resolvePath directory SPEC_FILE_NAME

/-- The output path of a (directory, language) pair,
`resolve(location, SPEC_FILE_NAME ++ "." ++ language)`. -/
def outPath (directory language : String) : String :=
  resolvePath directory (SPEC_FILE_NAME ++ "." ++ language)

/-- The `AssemblyLoader` bound to a directory:
`() => readJson(resolve(directory, SPEC_FILE_NAME))` — every invocation
re-reads and re-parses the file at call time against the file system as it
then stands, yielding a fresh structure. -/
def loader (directory : String) (fs : Fs) : Option Assembly :=
  fs.read (asmPath directory)

/-- The registration loop of `loadAssemblies`: one
`rosetta.addAssembly(await loader(), directory)` per entry of the input
list, in order; a failing read rejects with the I/O error. -/
def registerAll (fs : Fs) : List String → Except JsError (List (Assembly × String))
  | [] => .ok []
  | d :: rest =>
    match loader d fs with
    | none => .error (.thrown ("ENOENT: no such file, " ++ asmPath d))
    | some asm => (registerAll fs rest).map fun regs => (asm, d) :: regs

/-- The key list of a JS `Map` built by repeated `set`: first-insertion
order, a later duplicate collapses onto its first occurrence. -/
def jsMapKeys (directories : List String) : List String :=
  directories.foldl (fun keys d => if d ∈ keys then keys else keys ++ [d]) []

/-- `loadAssemblies`: load the assembly of every directory once, register it
with the engine, and return the loader map (represented by its keys — the
loader bound to a key is `loader key`) together with the registration
trace. -/
def loadAssemblies (fs : Fs) (directories : List String) :
    Except JsError (List String × List (Assembly × String)) :=
  (registerAll fs directories).map fun regs => (jsMapKeys directories, regs)

/-- The observable events of a run, in order: a registration with the
engine, a loader invocation (carrying the document it returned), an output
write, and the end-of-run diagnostics printing. -/
inductive Event where
  | registered (directory : String)
  | loadedAssembly (directory language : String) (assembly : Assembly)
  | wroteOutput (path : String)
  | printedDiagnostics
deriving DecidableEq, Repr

/-- Whether an event is a registration with the engine. -/
def Event.isRegistered : Event → Bool
  | .registered _ => true
  | _ => false

/-- The options record of `transliterateAssembly`. -/
structure TransliterateAssemblyOptions where
  loose : Bool := false
  strict : Bool := false
  tablet : Option String := none
deriving Repr

/-- The `for (const type of Object.values(result.types ?? \x7b\x7d))` loop:
walk the entries in order; the first raised error halts the loop (the
mutations already performed persist on the heap, and the partially
processed list is returned with the error). -/
def transliterateTypeEntries (rosetta : Rosetta) (language workingDirectory : String)
    (loose : Bool) : List (String × JsiiType) → List (String × JsiiType) × Option JsError
  | [] => ([], none)
  | (fqn, t) :: rest =>
    let r := transliterateType rosetta language workingDirectory loose t
    match r.2 with
    | some e => ((fqn, r.1) :: rest, some e)
    | none =>
      let rr := transliterateTypeEntries rosetta language workingDirectory loose rest
      ((fqn, r.1) :: rr.1, rr.2)

/-- The types field after the walk: an absent `types` iterates nothing
(`?? \x7b\x7d`) and stays absent. -/
def transliterateTypesField (rosetta : Rosetta) (language workingDirectory : String)
    (loose : Bool) (types : Option (List (String × JsiiType))) :
    Option (List (String × JsiiType)) × Option JsError :=
  match types with
  | none => (none, none)
  | some ts =>
    let r := transliterateTypeEntries rosetta language workingDirectory loose ts
    (some r.1, r.2)

/-- The README step of an iteration: when a readme with a non-empty
markdown is present (JS truthiness of `result.readme?.markdown`), replace
the markdown by the engine markdown translation, run in strict mode with
the disclaimer composer as the formatting callback. -/
def translateReadme (rosetta : Rosetta) (language location : String)
    (result : Assembly) : Assembly :=
  match result.readme with
  | some rm =>
    if rm.markdown ≠ "" then
      { result with
        readme := some ⟨rosetta.translateSnippetsInMarkdown rm.markdown language true
          (fun translation => (translation.language, prefixDisclaimer translation))
          location⟩ }
    else result
  | none => result

/-- The body of an iteration once the loader returned a document: README
step, type walk, and — only when no error was raised — the `writeJson` of
the transliterated copy to the language-suffixed output path. -/
def processLoaded (rosetta : Rosetta) (options : TransliterateAssemblyOptions)
    (location language : String) (fs : Fs) (result₀ : Assembly) :
    Fs × List Event × Option JsError :=
  let ev := Event.loadedAssembly location language result₀
  let result₁ := translateReadme rosetta language location result₀
  let r := transliterateTypesField rosetta language location options.loose result₁.types
  match r.2 with
  | some e => (fs, [ev], some e)
  | none =>
    (fs.write (outPath location language) { result₁ with types := r.1 },
     [ev, Event.wroteOutput (outPath location language)], none)

/-- One (directory, language) iteration of the nested orchestrator loop:
re-invoke the loader of the directory, then run the iteration body. Returns
the file system after the iteration, the event trace of the iteration, and
the error that aborted it, if any. -/
def processPair (rosetta : Rosetta) (options : TransliterateAssemblyOptions)
    (location language : String) (fs : Fs) : Fs × List Event × Option JsError :=
  match loader location fs with
  | none => (fs, [], some (.thrown ("ENOENT: no such file, " ++ asmPath location)))
  | some result₀ => processLoaded rosetta options location language fs result₀

/-- The nested directory × language loop, strictly sequential: each pair is
fully processed against the file system left by its predecessors; an error
unwinds immediately, keeping the writes performed so far. -/
def processPairs (rosetta : Rosetta) (options : TransliterateAssemblyOptions) :
    List (String × String) → Fs → Fs × List Event × Option JsError
  | [], fs => (fs, [], none)
  | (location, language) :: rest, fs =>
    let r := processPair rosetta options location language fs
    match r.2.2 with
    | some _ => r
    | none =>
      let rr := processPairs rosetta options rest r.1
      (rr.1, r.2.1 ++ rr.2.1, rr.2.2)

/-- The iteration order of the nested loops: outer over the loader map
keys, inner over the target languages, in the order given. -/
def runPairs (directories languages : List String) : List (String × String) :=
  directories.flatMap fun d => languages.map fun l => (d, l)

/-- What a whole run leaves behind: the final file system, the event trace,
and the error the run threw, if any. -/
structure RunOutcome where
  fs : Fs
  events : List Event
  error : Option JsError
deriving DecidableEq, Repr

/-- The strict-mode failure. -/
def strictError : JsError :=
  .thrown "Strict mode is enabled and some examples failed compilation!"

/-- The orchestrator `transliterateAssembly` over an explicit file system:
build the loader map (registering each assembly with the engine as it is
first loaded), run the nested directory × language loop, then print the
accumulated diagnostics and throw the strict-mode failure exactly when
`rosetta.hasErrors && options.strict`. A mid-loop error unwinds
immediately: the outputs already written remain in the returned file
system and the diagnostics are not printed. (Tablet loading only mutates
engine-internal state and is absorbed into the abstract `Rosetta`.) -/
def transliterateAssembly (rosetta : Rosetta) (assemblyLocations targetLanguages : List String)
    (options : TransliterateAssemblyOptions) (fs : Fs) : RunOutcome :=
  match loadAssemblies fs assemblyLocations with
  | .error e => { fs := fs, events := [], error := some e }
  | .ok (dirs, regs) =>
    let regEvents := regs.map fun r => Event.registered r.2
    let r := processPairs rosetta options (runPairs dirs targetLanguages) fs
    match r.2.2 with
    | some e => { fs := r.1, events := regEvents ++ r.2.1, error := some e }
    | none =>
      { fs := r.1,
        events := regEvents ++ r.2.1 ++ [Event.printedDiagnostics],
        error := if rosetta.hasErrors && options.strict then some strictError else none }

/-- An engine that translates nothing (`translateSnippet` always declines)
and leaves markdown alone; used to instantiate theorems at concrete
inputs. -/
def nullRosetta : Rosetta :=
  { fixturize := fun s _ => s,
    translateSnippet := fun _ _ => none,
    translateSnippetsInMarkdown := fun md _ _ _ _ => md,
    hasErrors := false }

/-- An engine that translates every snippet to the same fixed translation;
used to instantiate theorems at concrete inputs. -/
def constRosetta (translation : Translation) : Rosetta :=
  { fixturize := fun s _ => s,
    translateSnippet := fun _ _ => some translation,
    translateSnippetsInMarkdown := fun md _ _ _ _ => md,
    hasErrors := false }

theorem intercalate_four (s a b c d : String) :
    String.intercalate s [a, b, c, d] = a ++ s ++ b ++ s ++ c ++ s ++ d := rfl

theorem commentToken_default (L : String) (h1 : L ≠ "python") (h2 : L ≠ "ruby") :
    commentToken L = "//" := by
  unfold commentToken
  split <;> simp_all

theorem transliterateType_class_eq (rosetta : Rosetta) (language workingDirectory : String)
    (loose : Bool) (t : JsiiType) (hk : t.kind = TypeKindClass) :
    transliterateType rosetta language workingDirectory loose t =
      ({ t with
          docs := transliterateDocs rosetta language workingDirectory loose t.docs,
          initializer := t.initializer.map fun i =>
            { i with docs := transliterateDocs rosetta language workingDirectory loose i.docs },
          methods := t.methods.map (List.map fun m =>
            { m with
              docs := transliterateDocs rosetta language workingDirectory loose m.docs,
              parameters := m.parameters.map (List.map fun p =>
                { p with docs := transliterateDocs rosetta language workingDirectory loose p.docs }) }),
          properties := t.properties.map (List.map fun p =>
            { p with docs := transliterateDocs rosetta language workingDirectory loose p.docs }) },
       none) := by
  simp [transliterateType, applyInterfaceStyle, hk, TypeKindClass, TypeKindInterface, TypeKindEnum]

theorem transliterateType_interface_eq (rosetta : Rosetta) (language workingDirectory : String)
    (loose : Bool) (t : JsiiType) (hk : t.kind = TypeKindInterface) :
    transliterateType rosetta language workingDirectory loose t =
      ({ t with
          docs := transliterateDocs rosetta language workingDirectory loose t.docs,
          methods := t.methods.map (List.map fun m =>
            { m with
              docs := transliterateDocs rosetta language workingDirectory loose m.docs,
              parameters := m.parameters.map (List.map fun p =>
                { p with docs := transliterateDocs rosetta language workingDirectory loose p.docs }) }),
          properties := t.properties.map (List.map fun p =>
            { p with docs := transliterateDocs rosetta language workingDirectory loose p.docs }) },
       none) := by
  simp [transliterateType, applyInterfaceStyle, hk, TypeKindClass, TypeKindInterface, TypeKindEnum]

theorem transliterateType_enum_eq (rosetta : Rosetta) (language workingDirectory : String)
    (loose : Bool) (t : JsiiType) (ms : List EnumMember) (hk : t.kind = TypeKindEnum)
    (hm : t.members = some ms) :
    transliterateType rosetta language workingDirectory loose t =
      ({ t with
          docs := transliterateDocs rosetta language workingDirectory loose t.docs,
          members := some (ms.map fun m =>
            { m with docs := transliterateDocs rosetta language workingDirectory loose m.docs }) },
       none) := by
  simp [transliterateType, hk, hm, TypeKindClass, TypeKindInterface, TypeKindEnum]

theorem transliterateType_enum_none_eq (rosetta : Rosetta) (language workingDirectory : String)
    (loose : Bool) (t : JsiiType) (hk : t.kind = TypeKindEnum) (hm : t.members = none) :
    transliterateType rosetta language workingDirectory loose t =
      ({ t with docs := transliterateDocs rosetta language workingDirectory loose t.docs },
       some (.typeError "type.members is not iterable")) := by
  simp [transliterateType, hk, hm, TypeKindClass, TypeKindInterface, TypeKindEnum]

theorem transliterateType_unsupported_eq (rosetta : Rosetta) (language workingDirectory : String)
    (loose : Bool) (t : JsiiType) (h1 : t.kind ≠ TypeKindClass)
    (h2 : t.kind ≠ TypeKindInterface) (h3 : t.kind ≠ TypeKindEnum) :
    transliterateType rosetta language workingDirectory loose t =
      ({ t with docs := transliterateDocs rosetta language workingDirectory loose t.docs },
       some (.thrown ("Unsupported type kind: " ++ t.kind))) := by
  simp [transliterateType, h1, h2, h3]

theorem transliterateType_docs_eq (rosetta : Rosetta) (language workingDirectory : String)
    (loose : Bool) (t : JsiiType) :
    ((transliterateType rosetta language workingDirectory loose t).1).docs =
      transliterateDocs rosetta language workingDirectory loose t.docs := by
  unfold transliterateType
  rcases h1 : decide (t.kind = TypeKindClass ∨ t.kind = TypeKindInterface) with _ | _
  · simp at h1
    obtain ⟨h1a, h1b⟩ := h1
    simp [h1a, h1b]
    rcases h2 : decide (t.kind = TypeKindEnum) with _ | _
    · simp at h2
      simp [h2]
    · simp at h2
      cases hm : t.members <;> simp [h2, hm]
  · simp at h1
    rcases h1 with h | h <;> simp [h, applyInterfaceStyle, TypeKindClass, TypeKindInterface]

theorem translateReadme_types (rosetta : Rosetta) (language location : String)
    (result : Assembly) :
    (translateReadme rosetta language location result).types = result.types := by
  unfold translateReadme
  split
  · split <;> rfl
  · rfl

theorem transliterateTypeEntries_error (rosetta : Rosetta) (language workingDirectory : String)
    (loose : Bool) (ts : List (String × JsiiType)) (fqn : String) (t : JsiiType)
    (hmem : (fqn, t) ∈ ts)
    (ht : ((transliterateType rosetta language workingDirectory loose t).2).isSome) :
    ((transliterateTypeEntries rosetta language workingDirectory loose ts).2).isSome := by
  induction ts with
  | nil => cases hmem
  | cons hd rest ih =>
    obtain ⟨f0, t0⟩ := hd
    cases h0 : (transliterateType rosetta language workingDirectory loose t0).2 with
    | some e => simp [transliterateTypeEntries, h0]
    | none =>
      rcases List.mem_cons.mp hmem with heq | hmem'
      · cases heq
        rw [h0] at ht
        simp at ht
      · simp only [transliterateTypeEntries, h0]
        exact ih hmem'

theorem Fs.read_write_ne (fs : Fs) (p q : String) (a : Assembly) (h : p ≠ q) :
    (Fs.write fs q a).read p = fs.read p := by
  have h' : (q == p) = false := by
    simp only [beq_eq_false_iff_ne, ne_eq]
    exact fun hq => h hq.symm
  simp [Fs.write, Fs.read, List.find?_cons, h']

theorem processLoaded_cases (rosetta : Rosetta) (options : TransliterateAssemblyOptions)
    (location language : String) (fs : Fs) (result₀ : Assembly) :
    (∃ e, processLoaded rosetta options location language fs result₀ =
        (fs, [Event.loadedAssembly location language result₀], some e))
  ∨ (∃ b, processLoaded rosetta options location language fs result₀ =
        (fs.write (outPath location language) b,
         [Event.loadedAssembly location language result₀,
          Event.wroteOutput (outPath location language)],
         none)) := by
  cases h : (transliterateTypesField rosetta language location options.loose
      (translateReadme rosetta language location result₀).types).2 with
  | some e => exact Or.inl ⟨e, by simp [processLoaded, h]⟩
  | none =>
    exact Or.inr ⟨{ translateReadme rosetta language location result₀ with
        types := (transliterateTypesField rosetta language location options.loose
          (translateReadme rosetta language location result₀).types).1 },
      by simp [processLoaded, h]⟩

theorem processPair_cases (rosetta : Rosetta) (options : TransliterateAssemblyOptions)
    (location language : String) (fs : Fs) :
    (∃ e, processPair rosetta options location language fs = (fs, [], some e))
  ∨ (∃ a e, processPair rosetta options location language fs =
        (fs, [Event.loadedAssembly location language a], some e)
      ∧ fs.read (asmPath location) = some a)
  ∨ (∃ a b, processPair rosetta options location language fs =
        (fs.write (outPath location language) b,
         [Event.loadedAssembly location language a, Event.wroteOutput (outPath location language)],
         none)
      ∧ fs.read (asmPath location) = some a) := by
  cases hld : loader location fs with
  | none =>
    exact Or.inl ⟨.thrown ("ENOENT: no such file, " ++ asmPath location),
      by simp [processPair, hld]⟩
  | some a =>
    have hpl : processPair rosetta options location language fs =
        processLoaded rosetta options location language fs a := by
      simp [processPair, hld]
    rcases processLoaded_cases rosetta options location language fs a with ⟨e, he⟩ | ⟨b, hb⟩
    · exact Or.inr (Or.inl ⟨a, e, hpl.trans he, hld⟩)
    · exact Or.inr (Or.inr ⟨a, b, hpl.trans hb, hld⟩)

theorem processPair_read_ne (rosetta : Rosetta) (options : TransliterateAssemblyOptions)
    (location language : String) (fs : Fs) (p : String)
    (h : p ≠ outPath location language) :
    ((processPair rosetta options location language fs).1).read p = fs.read p := by
  rcases processPair_cases rosetta options location language fs with
    ⟨e, he⟩ | ⟨a, e, he, _⟩ | ⟨a, b, he, _⟩ <;> rw [he]
  exact Fs.read_write_ne _ _ _ _ h

theorem processPair_error_fs (rosetta : Rosetta) (options : TransliterateAssemblyOptions)
    (location language : String) (fs : Fs)
    (h : ((processPair rosetta options location language fs).2.2).isSome) :
    (processPair rosetta options location language fs).1 = fs := by
  rcases processPair_cases rosetta options location language fs with
    ⟨e, he⟩ | ⟨a, e, he, _⟩ | ⟨a, b, he, _⟩ <;> rw [he] at h ⊢
  simp at h

theorem processPair_ok_wrote (rosetta : Rosetta) (options : TransliterateAssemblyOptions)
    (location language : String) (fs : Fs)
    (h : (processPair rosetta options location language fs).2.2 = none) :
    Event.wroteOutput (outPath location language) ∈
      (processPair rosetta options location language fs).2.1 := by
  rcases processPair_cases rosetta options location language fs with
    ⟨e, he⟩ | ⟨a, e, he, _⟩ | ⟨a, b, he, _⟩ <;> rw [he] at h ⊢
  · simp at h
  · simp at h
  · simp

theorem processPairs_cons (rosetta : Rosetta) (options : TransliterateAssemblyOptions)
    (location language : String) (rest : List (String × String)) (fs : Fs) :
    processPairs rosetta options ((location, language) :: rest) fs =
      (match (processPair rosetta options location language fs).2.2 with
      | some _ => processPair rosetta options location language fs
      | none =>
        ((processPairs rosetta options rest (processPair rosetta options location language fs).1).1,
         (processPair rosetta options location language fs).2.1 ++
           (processPairs rosetta options rest (processPair rosetta options location language fs).1).2.1,
         (processPairs rosetta options rest (processPair rosetta options location language fs).1).2.2)) := rfl

theorem processPairs_read_ne (rosetta : Rosetta) (options : TransliterateAssemblyOptions)
    (prs : List (String × String)) (fs : Fs) (p : String)
    (h : ∀ pr ∈ prs, p ≠ outPath pr.1 pr.2) :
    ((processPairs rosetta options prs fs).1).read p = fs.read p := by
  induction prs generalizing fs with
  | nil => rfl
  | cons pr rest ih =>
    obtain ⟨location, language⟩ := pr
    have hhead : p ≠ outPath location language := h (location, language) (List.mem_cons_self _ _)
    have htail : ∀ pr ∈ rest, p ≠ outPath pr.1 pr.2 := fun pr hm => h pr (List.mem_cons_of_mem _ hm)
    rw [processPairs_cons]
    rcases processPair_cases rosetta options location language fs with
      ⟨e, he⟩ | ⟨a, e, he, _⟩ | ⟨a, b, he, _⟩ <;> rw [he] <;> dsimp only
    · exact (ih _ htail).trans (Fs.read_write_ne _ _ _ _ hhead)

theorem processPairs_events_shape (rosetta : Rosetta) (options : TransliterateAssemblyOptions)
    (prs : List (String × String)) (fs : Fs) :
    ∀ ev ∈ (processPairs rosetta options prs fs).2.1,
      (∃ d l a, ev = Event.loadedAssembly d l a) ∨ (∃ q, ev = Event.wroteOutput q) := by
  induction prs generalizing fs with
  | nil => simp [processPairs]
  | cons pr rest ih =>
    obtain ⟨location, language⟩ := pr
    rw [processPairs_cons]
    rcases processPair_cases rosetta options location language fs with
      ⟨e, he⟩ | ⟨a, e, he, _⟩ | ⟨a, b, he, _⟩ <;> rw [he] <;> dsimp only
    · simp
    · intro ev hm
      simp only [List.mem_singleton] at hm
      exact Or.inl ⟨location, language, a, hm⟩
    · intro ev hm
      simp only [List.cons_append, List.nil_append, List.mem_cons] at hm
      rcases hm with hm | hm | hm
      · exact Or.inl ⟨location, language, a, hm⟩
      · exact Or.inr ⟨_, hm⟩
      · exact ih _ ev hm

theorem processPairs_loaded (rosetta : Rosetta) (options : TransliterateAssemblyOptions)
    (prs : List (String × String)) (fs : Fs)
    (hcol : ∀ pr ∈ prs, ∀ pr' ∈ prs, outPath pr.1 pr.2 ≠ asmPath pr'.1) :
    ∀ d l a, Event.loadedAssembly d l a ∈ (processPairs rosetta options prs fs).2.1 →
      (d, l) ∈ prs ∧ fs.read (asmPath d) = some a := by
  induction prs generalizing fs with
  | nil => simp [processPairs]
  | cons pr rest ih =>
    obtain ⟨location, language⟩ := pr
    have hcoltail : ∀ pr ∈ rest, ∀ pr' ∈ rest, outPath pr.1 pr.2 ≠ asmPath pr'.1 :=
      fun pr hm pr' hm' => hcol pr (List.mem_cons_of_mem _ hm) pr' (List.mem_cons_of_mem _ hm')
    intro d l a hm
    rw [processPairs_cons] at hm
    rcases processPair_cases rosetta options location language fs with
      ⟨e, he⟩ | ⟨a', e, he, hra⟩ | ⟨a', b, he, hra⟩ <;> rw [he] at hm <;> dsimp only at hm
    · simp at hm
    · simp only [List.mem_singleton, Event.loadedAssembly.injEq] at hm
      obtain ⟨h1, h2, h3⟩ := hm
      subst h1; subst h2; subst h3
      exact ⟨List.mem_cons_self _ _, hra⟩
    · simp only [List.cons_append, List.nil_append, List.mem_cons,
        Event.loadedAssembly.injEq] at hm
      rcases hm with ⟨h1, h2, h3⟩ | hm | hm
      · subst h1; subst h2; subst h3
        exact ⟨List.mem_cons_self _ _, hra⟩
      · cases hm
      · obtain ⟨hmem, hread⟩ := ih _ hcoltail d l a hm
        refine ⟨List.mem_cons_of_mem _ hmem, ?_⟩
        rw [← hread]
        exact (Fs.read_write_ne _ _ _ _
          (hcol (location, language) (List.mem_cons_self _ _) (d, l)
            (List.mem_cons_of_mem _ hmem)).symm).symm

theorem processPairs_complete (rosetta : Rosetta) (options : TransliterateAssemblyOptions)
    (prs : List (String × String)) (fs : Fs)
    (h : (processPairs rosetta options prs fs).2.2 = none) :
    ∀ pr ∈ prs, Event.wroteOutput (outPath pr.1 pr.2) ∈ (processPairs rosetta options prs fs).2.1 := by
  induction prs generalizing fs with
  | nil => simp
  | cons pr rest ih =>
    obtain ⟨location, language⟩ := pr
    rw [processPairs_cons] at h ⊢
    rcases processPair_cases rosetta options location language fs with
      ⟨e, he⟩ | ⟨a, e, he, _⟩ | ⟨a, b, he, _⟩ <;> rw [he] at h ⊢ <;> dsimp only at h ⊢
    · simp at h
    · simp at h
    · intro pr hm
      rcases List.mem_cons.mp hm with hm | hm
      · subst hm
        simp
      · simp only [List.cons_append, List.nil_append, List.mem_cons]
        exact Or.inr (Or.inr (ih _ h pr hm))

theorem registerAll_snd (fs : Fs) (directories : List String)
    (regs : List (Assembly × String)) (h : registerAll fs directories = .ok regs) :
    regs.map (·.2) = directories := by
  induction directories generalizing regs with
  | nil =>
    simp [registerAll] at h
    subst h
    rfl
  | cons d rest ih =>
    rw [registerAll] at h
    cases hld : loader d fs with
    | none => rw [hld] at h; cases h
    | some asm =>
      rw [hld] at h
      cases hra : registerAll fs rest with
      | error e => rw [hra] at h; cases h
      | ok regs' =>
        rw [hra] at h
        simp only [Except.map] at h
        cases h
        simp [ih regs' hra]

theorem jsMapKeys_subset (directories : List String) :
    ∀ d ∈ jsMapKeys directories, d ∈ directories := by
  have key : ∀ (l : List String) (acc : List String) (d : String),
      d ∈ l.foldl (fun keys x => if x ∈ keys then keys else keys ++ [x]) acc →
      d ∈ acc ∨ d ∈ l := by
    intro l
    induction l with
    | nil => intro acc d h; exact Or.inl h
    | cons x rest ih =>
      intro acc d h
      simp only [List.foldl_cons] at h
      rcases ih _ d h with hacc | hrest
      · by_cases hx : x ∈ acc
        · rw [if_pos hx] at hacc
          exact Or.inl hacc
        · rw [if_neg hx] at hacc
          rcases List.mem_append.mp hacc with h1 | h1
          · exact Or.inl h1
          · simp only [List.mem_singleton] at h1
            exact Or.inr (h1 ▸ List.mem_cons_self _ _)
      · exact Or.inr (List.mem_cons_of_mem _ hrest)
  intro d h
  rcases key directories [] d h with h1 | h1
  · cases h1
  · exact h1

theorem runPairs_mem (directories languages : List String) (pr : String × String) :
    pr ∈ runPairs directories languages ↔ pr.1 ∈ directories ∧ pr.2 ∈ languages := by
  obtain ⟨d, l⟩ := pr
  simp only [runPairs, List.mem_flatMap, List.mem_map, Prod.mk.injEq]
  constructor
  · rintro ⟨x, hx, l', hl, h1, h2⟩
    exact ⟨h1 ▸ hx, h2 ▸ hl⟩
  · rintro ⟨hd, hl⟩
    exact ⟨d, hd, l, hl, rfl, rfl⟩

theorem count_map_registered (l : List String) (d : String) :
    (l.map Event.registered).count (Event.registered d) = l.count d := by
  induction l with
  | nil => rfl
  | cons x rest ih =>
    simp only [List.map_cons, List.count_cons, ih, beq_iff_eq, Event.registered.injEq]

theorem transliterateAssembly_err (rosetta : Rosetta) (options : TransliterateAssemblyOptions)
    (locs langs : List String) (fs : Fs) (e : JsError)
    (hra : registerAll fs locs = .error e) :
    transliterateAssembly rosetta locs langs options fs =
      { fs := fs, events := [], error := some e } := by
  simp [transliterateAssembly, loadAssemblies, hra, Except.map]

theorem transliterateAssembly_ok (rosetta : Rosetta) (options : TransliterateAssemblyOptions)
    (locs langs : List String) (fs : Fs) (regs : List (Assembly × String))
    (hra : registerAll fs locs = .ok regs) :
    transliterateAssembly rosetta locs langs options fs =
      (match (processPairs rosetta options (runPairs (jsMapKeys locs) langs) fs).2.2 with
       | some e =>
         { fs := (processPairs rosetta options (runPairs (jsMapKeys locs) langs) fs).1,
           events := regs.map (fun r => Event.registered r.2) ++
             (processPairs rosetta options (runPairs (jsMapKeys locs) langs) fs).2.1,
           error := some e }
       | none =>
         { fs := (processPairs rosetta options (runPairs (jsMapKeys locs) langs) fs).1,
           events := regs.map (fun r => Event.registered r.2) ++
             (processPairs rosetta options (runPairs (jsMapKeys locs) langs) fs).2.1 ++
             [Event.printedDiagnostics],
           error := if rosetta.hasErrors && options.strict then some strictError else none }) := by
  simp only [transliterateAssembly, loadAssemblies, hra, Except.map]

/-- C1: for every directory, each invocation of the AssemblyLoader of that
directory returns a fresh, structurally independent copy of the assembly.
Formalised: provided no output path collides with an assembly path, (a) the
final file system of a run agrees with the initial one on the assembly path
of every processed directory (the on-disk original is never mutated), and
(b) every loader invocation performed during the run returns exactly the
document initially on disk — so the copy one (directory, language)
iteration works on is always the pristine original, and mutations applied
during any iteration are not observable in the copy of any other
invocation. -/
theorem transliterateAssembly_fresh_copies_and_disk_untouched (rosetta : Rosetta)
    (options : TransliterateAssemblyOptions)
    (assemblyLocations targetLanguages : List String) (fs : Fs)
    (hcol : ∀ d ∈ assemblyLocations, ∀ l ∈ targetLanguages, ∀ d' ∈ assemblyLocations,
      outPath d l ≠ asmPath d') :
    (∀ d ∈ assemblyLocations,
      (transliterateAssembly rosetta assemblyLocations targetLanguages options fs).fs.read (asmPath d)
        = fs.read (asmPath d))
    ∧ (∀ d l a,
        Event.loadedAssembly d l a ∈
          (transliterateAssembly rosetta assemblyLocations targetLanguages options fs).events →
        fs.read (asmPath d) = some a) := by
  cases hra : registerAll fs assemblyLocations with
  | error e =>
    rw [transliterateAssembly_err rosetta options _ _ fs e hra]
    exact ⟨fun d _ => rfl, fun d l a hm => absurd hm (List.not_mem_nil _)⟩
  | ok regs =>
    have hout := transliterateAssembly_ok rosetta options assemblyLocations targetLanguages fs regs hra
    have hcol' : ∀ pr ∈ runPairs (jsMapKeys assemblyLocations) targetLanguages,
        ∀ pr' ∈ runPairs (jsMapKeys assemblyLocations) targetLanguages,
        outPath pr.1 pr.2 ≠ asmPath pr'.1 := by
      intro pr hpr pr' hpr'
      have h1 := (runPairs_mem _ _ pr).mp hpr
      have h2 := (runPairs_mem _ _ pr').mp hpr'
      exact hcol pr.1 (jsMapKeys_subset _ _ h1.1) pr.2 h1.2 pr'.1 (jsMapKeys_subset _ _ h2.1)
    have hfs : (transliterateAssembly rosetta assemblyLocations targetLanguages options fs).fs =
        (processPairs rosetta options (runPairs (jsMapKeys assemblyLocations) targetLanguages) fs).1 := by
      rw [hout]
      cases h22 : (processPairs rosetta options
          (runPairs (jsMapKeys assemblyLocations) targetLanguages) fs).2.2 <;> simp [h22]
    have hev : (transliterateAssembly rosetta assemblyLocations targetLanguages options fs).events =
          regs.map (fun r => Event.registered r.2) ++
            (processPairs rosetta options (runPairs (jsMapKeys assemblyLocations) targetLanguages) fs).2.1
        ∨ (transliterateAssembly rosetta assemblyLocations targetLanguages options fs).events =
          regs.map (fun r => Event.registered r.2) ++
            (processPairs rosetta options (runPairs (jsMapKeys assemblyLocations) targetLanguages) fs).2.1 ++
            [Event.printedDiagnostics] := by
      rw [hout]
      cases h22 : (processPairs rosetta options
          (runPairs (jsMapKeys assemblyLocations) targetLanguages) fs).2.2 with
      | none => exact Or.inr (by simp [h22])
      | some e => exact Or.inl (by simp [h22])
    constructor
    · intro d hd
      rw [hfs]
      refine processPairs_read_ne rosetta options _ fs (asmPath d) ?_
      intro pr hpr
      have h1 := (runPairs_mem _ _ pr).mp hpr
      exact Ne.symm (hcol pr.1 (jsMapKeys_subset _ _ h1.1) pr.2 h1.2 d hd)
    · intro d l a hm
      rcases hev with h | h <;> rw [h] at hm <;>
        simp only [List.mem_append, List.mem_singleton, List.mem_map] at hm
      · rcases hm with ⟨r, _, heq⟩ | hm
        · cases heq
        · exact (processPairs_loaded rosetta options _ fs hcol' d l a hm).2
      · rcases hm with (⟨r, _, heq⟩ | hm) | hp
        · cases heq
        · exact (processPairs_loaded rosetta options _ fs hcol' d l a hm).2
        · cases hp

/-- Witness for C1 at a concrete one-directory, one-language run. -/
theorem transliterateAssembly_fresh_copies_and_disk_untouched_witness :
    (∀ d ∈ ["pkg"],
      (transliterateAssembly nullRosetta ["pkg"] ["python"] {}
        [(asmPath "pkg", { name := "pkg" })]).fs.read (asmPath d) =
        Fs.read [(asmPath "pkg", { name := "pkg" })] (asmPath d))
    ∧ (∀ d l a,
        Event.loadedAssembly d l a ∈
          (transliterateAssembly nullRosetta ["pkg"] ["python"] {}
            [(asmPath "pkg", { name := "pkg" })]).events →
        Fs.read [(asmPath "pkg", { name := "pkg" })] (asmPath d) = some a) :=
  transliterateAssembly_fresh_copies_and_disk_untouched nullRosetta {} ["pkg"] ["python"]
    [(asmPath "pkg", { name := "pkg" })] (by decide)

/-- Counterexample to C2 as stated: for a type of the unsupported kind
`datatype` whose own docs carry an example the engine translates, the
walker does translate that type-level Docs node (the claim said no Docs
node of the type is translated), even though the unsupported-kind error is
raised. -/
theorem transliterateType_unsupported_counterexample :
    ((transliterateType (constRosetta { language := "python", source := "T", didCompile := true })
        "python" "pkg" false
        { kind := "datatype", docs := some { «example» := some "x" } }).1).docs ≠
      some { «example» := some "x" }
    ∧ ((transliterateType (constRosetta { language := "python", source := "T", didCompile := true })
        "python" "pkg" false
        { kind := "datatype", docs := some { «example» := some "x" } }).2).isSome := by
  decide

/-- C2 (amended): for every type whose kind is outside Class, Interface and
Enum, the walker raises the fatal unsupported-type-kind error and performs
no kind-specific processing — but the own top-level Docs of the type is
translated before the error is raised; and whenever the iteration of a
(directory, language) pair raises an error (in particular when its assembly
contains such a type), the output file of that pair is not written: the
iteration leaves the file system exactly as it found it. -/
theorem transliterateType_unsupported_spec (rosetta : Rosetta)
    (language workingDirectory : String) (loose : Bool)
    (t : JsiiType) (options : TransliterateAssemblyOptions) (location lang2 : String)
    (fs : Fs) (asm : Assembly) (ts : List (String × JsiiType)) (fqn : String)
    (h1 : t.kind ≠ TypeKindClass) (h2 : t.kind ≠ TypeKindInterface)
    (h3 : t.kind ≠ TypeKindEnum) :
    transliterateType rosetta language workingDirectory loose t =
      ({ t with docs := transliterateDocs rosetta language workingDirectory loose t.docs },
       some (.thrown ("Unsupported type kind: " ++ t.kind)))
    ∧ (fs.read (asmPath location) = some asm → asm.types = some ts → (fqn, t) ∈ ts →
        ((processPair rosetta options location lang2 fs).2.2).isSome
        ∧ (processPair rosetta options location lang2 fs).1 = fs) := by
  refine ⟨transliterateType_unsupported_eq rosetta language workingDirectory loose t h1 h2 h3, ?_⟩
  intro hread hts hmem
  have hterr : ((transliterateType rosetta lang2 location options.loose t).2).isSome := by
    rw [transliterateType_unsupported_eq rosetta lang2 location options.loose t h1 h2 h3]
    rfl
  have hent : ((transliterateTypeEntries rosetta lang2 location options.loose ts).2).isSome :=
    transliterateTypeEntries_error rosetta lang2 location options.loose ts fqn t hmem hterr
  have htf : ((transliterateTypesField rosetta lang2 location options.loose
      (translateReadme rosetta lang2 location asm).types).2).isSome := by
    rw [translateReadme_types, hts]
    simpa [transliterateTypesField] using hent
  obtain ⟨e, he⟩ := Option.isSome_iff_exists.mp htf
  have hpl : processPair rosetta options location lang2 fs =
      processLoaded rosetta options location lang2 fs asm := by
    simp [processPair, loader, hread]
  have hbody : processLoaded rosetta options location lang2 fs asm =
      (fs, [Event.loadedAssembly location lang2 asm], some e) := by
    simp [processLoaded, he]
  rw [hpl, hbody]
  exact ⟨rfl, rfl⟩

/-- Witness for C2 (amended) at a concrete assembly holding one type of
kind `datatype`: the iteration errors and writes nothing. -/
theorem transliterateType_unsupported_spec_witness :
    ((processPair nullRosetta {} "pkg" "python"
        [(asmPath "pkg", { types := some [("pkg.T", { kind := "datatype" })] })]).2.2).isSome
    ∧ (processPair nullRosetta {} "pkg" "python"
        [(asmPath "pkg", { types := some [("pkg.T", { kind := "datatype" })] })]).1 =
      [(asmPath "pkg", { types := some [("pkg.T", { kind := "datatype" })] })] :=
  (transliterateType_unsupported_spec nullRosetta "python" "pkg" false { kind := "datatype" } {}
      "pkg" "python"
      [(asmPath "pkg", { types := some [("pkg.T", { kind := "datatype" })] })]
      { types := some [("pkg.T", { kind := "datatype" })] }
      [("pkg.T", { kind := "datatype" })] "pkg.T"
      (by decide) (by decide) (by decide)).2 (by decide) rfl (by decide)

/-- Counterexample to C3 as stated: for an Enum type whose own docs carry
an example the engine translates, the walker applies the translation
callback to that type-level Docs node as well, so the callback is not
applied exactly to the member Docs and to no other Docs node. -/
theorem transliterateType_enum_counterexample :
    ((transliterateType (constRosetta { language := "python", source := "S", didCompile := false })
        "python" "wd" false
        { kind := "enum", docs := some { «example» := some "y" }, members := some [] }).1).docs ≠
      some { «example» := some "y" } := by
  decide

/-- C3 (amended): for every Enum type with a present member collection, the
walker applies the translation callback to the own top-level Docs of the
type and to the Docs of each member, and to no other Docs node; no
Interface-style handling occurs — the initializer, method and property
fields are left untouched and no error is raised. -/
theorem transliterateType_enum_spec (rosetta : Rosetta)
    (language workingDirectory : String) (loose : Bool)
    (t : JsiiType) (ms : List EnumMember) (hk : t.kind = TypeKindEnum)
    (hm : t.members = some ms) :
    transliterateType rosetta language workingDirectory loose t =
      ({ t with
          docs := transliterateDocs rosetta language workingDirectory loose t.docs,
          members := some (ms.map fun m =>
            { m with docs := transliterateDocs rosetta language workingDirectory loose m.docs }) },
       none)
    ∧ ((transliterateType rosetta language workingDirectory loose t).1).methods = t.methods
    ∧ ((transliterateType rosetta language workingDirectory loose t).1).properties = t.properties
    ∧ ((transliterateType rosetta language workingDirectory loose t).1).initializer = t.initializer := by
  rw [transliterateType_enum_eq rosetta language workingDirectory loose t ms hk hm]
  exact ⟨rfl, rfl, rfl, rfl⟩

/-- Witness for C3 (amended) at a concrete enum; the engine declines every
snippet, so the walk returns the type unchanged and error-free. -/
theorem transliterateType_enum_spec_witness :
    transliterateType nullRosetta "python" "pkg" false
      { kind := "enum", docs := some { «example» := some "e" },
        members := some [{ docs := some { «example» := some "m" } }] } =
      ({ kind := "enum", docs := some { «example» := some "e" },
         members := some [{ docs := some { «example» := some "m" } }] }, none) :=
  ((transliterateType_enum_spec nullRosetta "python" "pkg" false
    { kind := "enum", docs := some { «example» := some "e" },
      members := some [{ docs := some { «example» := some "m" } }] }
    [{ docs := some { «example» := some "m" } }] (by decide) (by decide)).1).trans (by decide)

/-- C4: the disclaimer composer output. For didCompile false and a language
outside python and ruby the result is exactly the double-slash disclaimer,
the fixed reference URL line, a blank separator and the source; for python
and ruby the comment marker is the hash sign; the slash marker is the
default for every other or unrecognized language; and for didCompile true
only the wording of the first line changes to the confirmed-success
message, the second line and the blank separator staying identical. -/
theorem prefixDisclaimer_spec (L S : String) :
    (L ≠ "python" → L ≠ "ruby" →
      prefixDisclaimer { language := L, source := S, didCompile := false } =
        "// This example was automatically transliterated with incomplete type information. It may not work as-is.\n// See https://github.com/aws/jsii/issues/826 for more information.\n\n" ++ S)
    ∧ ((L = "python" ∨ L = "ruby") →
      prefixDisclaimer { language := L, source := S, didCompile := false } =
        "# This example was automatically transliterated with incomplete type information. It may not work as-is.\n# See https://github.com/aws/jsii/issues/826 for more information.\n\n" ++ S)
    ∧ (prefixDisclaimer { language := L, source := S, didCompile := true } =
        commentToken L ++ (" This example was automatically transliterated." ++
          ("\n" ++ (commentToken L ++ (" See https://github.com/aws/jsii/issues/826 for more information." ++ ("\n\n" ++ S))))))
    ∧ (prefixDisclaimer { language := L, source := S, didCompile := false } =
        commentToken L ++ (" This example was automatically transliterated with incomplete type information. It may not work as-is." ++
          ("\n" ++ (commentToken L ++ (" See https://github.com/aws/jsii/issues/826 for more information." ++ ("\n\n" ++ S)))))) := by
  refine ⟨fun h1 h2 => ?_, fun h => ?_, ?_, ?_⟩
  · simp only [prefixDisclaimer, commentToken_default L h1 h2, intercalate_four]
    rfl
  · rcases h with h | h <;> subst h <;>
      simp only [prefixDisclaimer, commentToken, intercalate_four] <;> rfl
  · simp only [prefixDisclaimer, intercalate_four, String.append_assoc]
    rfl
  · simp only [prefixDisclaimer, intercalate_four, String.append_assoc]
    rfl

/-- Witness for C4 at the concrete language csharp and source x. -/
theorem prefixDisclaimer_spec_witness :
    prefixDisclaimer { language := "csharp", source := "x", didCompile := false } =
      "// This example was automatically transliterated with incomplete type information. It may not work as-is.\n// See https://github.com/aws/jsii/issues/826 for more information.\n\n" ++ "x" :=
  (prefixDisclaimer_spec "csharp" "x").1 (by decide) (by decide)

/-- C5: for every Class type the walker raises no error, applies the
translation callback to the initializer Docs when an initializer is
present, and additionally performs the same Interface-style handling (the
Docs of every method, of every method parameter and of every property) —
the method and property results coincide with what the walker produces for
the same type retagged as an Interface, and the equations hold even when
both collections are empty. -/
theorem transliterateType_class_spec (rosetta : Rosetta)
    (language workingDirectory : String) (loose : Bool)
    (t : JsiiType) (hk : t.kind = TypeKindClass) :
    (transliterateType rosetta language workingDirectory loose t).2 = none
    ∧ ((transliterateType rosetta language workingDirectory loose t).1).initializer =
        t.initializer.map (fun i =>
          { i with docs := transliterateDocs rosetta language workingDirectory loose i.docs })
    ∧ ((transliterateType rosetta language workingDirectory loose t).1).methods =
        t.methods.map (List.map fun m =>
          { m with
            docs := transliterateDocs rosetta language workingDirectory loose m.docs,
            parameters := m.parameters.map (List.map fun p =>
              { p with docs := transliterateDocs rosetta language workingDirectory loose p.docs }) })
    ∧ ((transliterateType rosetta language workingDirectory loose t).1).properties =
        t.properties.map (List.map fun p =>
          { p with docs := transliterateDocs rosetta language workingDirectory loose p.docs })
    ∧ ((transliterateType rosetta language workingDirectory loose t).1).methods =
        ((transliterateType rosetta language workingDirectory loose
          { t with kind := TypeKindInterface }).1).methods
    ∧ ((transliterateType rosetta language workingDirectory loose t).1).properties =
        ((transliterateType rosetta language workingDirectory loose
          { t with kind := TypeKindInterface }).1).properties := by
  rw [transliterateType_class_eq rosetta language workingDirectory loose t hk,
    transliterateType_interface_eq rosetta language workingDirectory loose
      { t with kind := TypeKindInterface } rfl]
  exact ⟨rfl, rfl, rfl, rfl, rfl, rfl⟩

/-- Witness for C5 at a concrete class whose only documented element is the
initializer example and whose method and property collections are empty:
the initializer Docs is translated and no error is raised. -/
theorem transliterateType_class_spec_witness :
    (transliterateType (constRosetta { language := "python", source := "S", didCompile := true })
        "python" "pkg" false
        { kind := "class", initializer := some { docs := some { «example» := some "i" } },
          methods := some [], properties := some [] }).2 = none
    ∧ ((transliterateType (constRosetta { language := "python", source := "S", didCompile := true })
        "python" "pkg" false
        { kind := "class", initializer := some { docs := some { «example» := some "i" } },
          methods := some [], properties := some [] }).1).initializer =
      some { docs := some { «example» := some (prefixDisclaimer
        { language := "python", source := "S", didCompile := true }) } } := by
  have h := transliterateType_class_spec
    (constRosetta { language := "python", source := "S", didCompile := true })
    "python" "pkg" false
    { kind := "class", initializer := some { docs := some { «example» := some "i" } },
      methods := some [], properties := some [] } (by decide)
  exact ⟨h.1, (h.2.1).trans (by decide)⟩

/-- C6: for every Docs node with a present, non-empty example, when the
engine returns no Translation the example text is left completely
unchanged (a silent skip — the function is total, no error is raised), and
the example is replaced by the disclaimer-composer output exactly when a
Translation is returned. -/
theorem transliterateDocs_silent_skip_spec (rosetta : Rosetta)
    (language workingDirectory : String) (loose : Bool)
    (d : Docs) (ex : String) (hex : d.«example» = some ex) (hne : ex ≠ "") :
    (rosetta.translateSnippet (rosetta.fixturize
        (typeScriptSnippetFromSource ex "example" true workingDirectory) loose) language = none →
      transliterateDocs rosetta language workingDirectory loose (some d) = some d)
    ∧ (∀ translation,
        rosetta.translateSnippet (rosetta.fixturize
          (typeScriptSnippetFromSource ex "example" true workingDirectory) loose) language =
            some translation →
        transliterateDocs rosetta language workingDirectory loose (some d) =
          some { d with «example» := some (prefixDisclaimer translation) }) := by
  constructor
  · intro hnone
    simp [transliterateDocs, hex, hne, hnone]
  · intro translation hsome
    simp [transliterateDocs, hex, hne, hsome]

/-- Witness for C6 at a concrete docs node and the engine that declines
every snippet: the example is unchanged. -/
theorem transliterateDocs_silent_skip_spec_witness :
    transliterateDocs nullRosetta "python" "pkg" false (some { «example» := some "x" }) =
      some { «example» := some "x" } :=
  (transliterateDocs_silent_skip_spec nullRosetta "python" "pkg" false
    { «example» := some "x" } "x" rfl (by decide)).1 rfl

/-- C7: for every run over distinct directories whose assemblies all load,
the registration trace is exactly one registration per input directory —
the registered events of the run are precisely the input directory list,
independent of the requested target languages, each directory is registered
exactly once, and all registrations precede every other event of the run
(so the per-language loader invocations of the iteration phase never
register again). -/
theorem registration_once_per_directory (rosetta : Rosetta)
    (options : TransliterateAssemblyOptions)
    (assemblyLocations targetLanguages : List String) (fs : Fs) (regs : List (Assembly × String))
    (hnd : assemblyLocations.Nodup)
    (hra : registerAll fs assemblyLocations = .ok regs) :
    ((transliterateAssembly rosetta assemblyLocations targetLanguages options fs).events.filter
        Event.isRegistered) = assemblyLocations.map Event.registered
    ∧ (∀ d ∈ assemblyLocations,
        (transliterateAssembly rosetta assemblyLocations targetLanguages options fs).events.count
          (Event.registered d) = 1)
    ∧ (∃ rest,
        (transliterateAssembly rosetta assemblyLocations targetLanguages options fs).events =
          assemblyLocations.map Event.registered ++ rest
        ∧ ∀ ev ∈ rest, Event.isRegistered ev = false) := by
  have hout := transliterateAssembly_ok rosetta options assemblyLocations targetLanguages fs regs hra
  have hregs : regs.map (fun r => Event.registered r.2) = assemblyLocations.map Event.registered := by
    rw [← registerAll_snd fs assemblyLocations regs hra]
    simp [List.map_map, Function.comp]
  have hev : (transliterateAssembly rosetta assemblyLocations targetLanguages options fs).events =
        assemblyLocations.map Event.registered ++
          (processPairs rosetta options (runPairs (jsMapKeys assemblyLocations) targetLanguages) fs).2.1
      ∨ (transliterateAssembly rosetta assemblyLocations targetLanguages options fs).events =
        assemblyLocations.map Event.registered ++
          ((processPairs rosetta options (runPairs (jsMapKeys assemblyLocations) targetLanguages) fs).2.1 ++
           [Event.printedDiagnostics]) := by
    rw [hout]
    cases h22 : (processPairs rosetta options
        (runPairs (jsMapKeys assemblyLocations) targetLanguages) fs).2.2 with
    | none => exact Or.inr (by simp [h22, hregs])
    | some e => exact Or.inl (by simp [h22, hregs])
  have hshape := processPairs_events_shape rosetta options
    (runPairs (jsMapKeys assemblyLocations) targetLanguages) fs
  have hnotreg : ∀ ev ∈ (processPairs rosetta options
      (runPairs (jsMapKeys assemblyLocations) targetLanguages) fs).2.1,
      Event.isRegistered ev = false := by
    intro ev hm
    rcases hshape ev hm with ⟨d, l, a, rfl⟩ | ⟨q, rfl⟩ <;> rfl
  have hmapfilter : (assemblyLocations.map Event.registered).filter Event.isRegistered =
      assemblyLocations.map Event.registered := by
    rw [List.filter_eq_self]
    intro ev hm
    obtain ⟨x, _, rfl⟩ := List.mem_map.mp hm
    rfl
  have hloopfilter : ((processPairs rosetta options
      (runPairs (jsMapKeys assemblyLocations) targetLanguages) fs).2.1).filter
        Event.isRegistered = [] := by
    rw [List.filter_eq_nil_iff]
    intro ev hm
    simp [hnotreg ev hm]
  have hcount_loop : ∀ d, ((processPairs rosetta options
      (runPairs (jsMapKeys assemblyLocations) targetLanguages) fs).2.1).count
        (Event.registered d) = 0 := by
    intro d
    rw [List.count_eq_zero]
    intro hm
    have := hnotreg _ hm
    simp [Event.isRegistered] at this
  refine ⟨?_, ?_, ?_⟩
  · rcases hev with h | h
    · rw [h, List.filter_append, hmapfilter, hloopfilter]
      simp
    · rw [h, List.filter_append, hmapfilter, List.filter_append, hloopfilter]
      simp [Event.isRegistered]
  · intro d hd
    have hone : (assemblyLocations.map Event.registered).count (Event.registered d) = 1 := by
      rw [count_map_registered]
      exact List.count_eq_one_of_mem hnd hd
    rcases hev with h | h
    · rw [h, List.count_append, hone, hcount_loop]
    · rw [h, List.count_append, hone, List.count_append, hcount_loop]
      simp
  · rcases hev with h | h
    · exact ⟨_, h, hnotreg⟩
    · refine ⟨_, h, ?_⟩
      intro ev hm
      rcases List.mem_append.mp hm with hm | hm
      · exact hnotreg ev hm
      · simp only [List.mem_singleton] at hm
        subst hm
        rfl

/-- Witness for C7 at a concrete one-directory, one-language run. -/
theorem registration_once_per_directory_witness :
    ((transliterateAssembly nullRosetta ["pkg"] ["python"] {}
        [(asmPath "pkg", { name := "pkg" })]).events.filter Event.isRegistered) =
      ["pkg"].map Event.registered
    ∧ (∀ d ∈ ["pkg"],
        (transliterateAssembly nullRosetta ["pkg"] ["python"] {}
          [(asmPath "pkg", { name := "pkg" })]).events.count (Event.registered d) = 1)
    ∧ (∃ rest,
        (transliterateAssembly nullRosetta ["pkg"] ["python"] {}
          [(asmPath "pkg", { name := "pkg" })]).events =
          ["pkg"].map Event.registered ++ rest
        ∧ ∀ ev ∈ rest, Event.isRegistered ev = false) :=
  registration_once_per_directory nullRosetta {} ["pkg"] ["python"]
    [(asmPath "pkg", { name := "pkg" })] [({ name := "pkg" }, "pkg")] (by decide) rfl

/-- C8: when the directory-language loop completes, the run never fails
before all pairs were processed — the diagnostics-printing event occurs
exactly once and is the last event of the run, every pair has its output
written, the final file system is exactly the one the loop produced (no
rollback, whether or not the strict failure is thrown), and the run throws
the fatal strict-mode error precisely when the strict option is set and the
engine accumulated an error diagnostic. -/
theorem diagnostics_printed_once_strict_mode_spec (rosetta : Rosetta)
    (options : TransliterateAssemblyOptions)
    (assemblyLocations targetLanguages : List String) (fs : Fs) (regs : List (Assembly × String))
    (hra : registerAll fs assemblyLocations = .ok regs)
    (hok : (processPairs rosetta options
      (runPairs (jsMapKeys assemblyLocations) targetLanguages) fs).2.2 = none) :
    ((transliterateAssembly rosetta assemblyLocations targetLanguages options fs).error =
        some strictError ↔ options.strict = true ∧ rosetta.hasErrors = true)
    ∧ (transliterateAssembly rosetta assemblyLocations targetLanguages options fs).fs =
        (processPairs rosetta options (runPairs (jsMapKeys assemblyLocations) targetLanguages) fs).1
    ∧ (transliterateAssembly rosetta assemblyLocations targetLanguages options fs).events.count
        Event.printedDiagnostics = 1
    ∧ (∃ pre, (transliterateAssembly rosetta assemblyLocations targetLanguages options fs).events =
        pre ++ [Event.printedDiagnostics])
    ∧ (∀ pr ∈ runPairs (jsMapKeys assemblyLocations) targetLanguages,
        Event.wroteOutput (outPath pr.1 pr.2) ∈
          (transliterateAssembly rosetta assemblyLocations targetLanguages options fs).events) := by
  have hout := transliterateAssembly_ok rosetta options assemblyLocations targetLanguages fs regs hra
  have hrun : transliterateAssembly rosetta assemblyLocations targetLanguages options fs =
      { fs := (processPairs rosetta options
          (runPairs (jsMapKeys assemblyLocations) targetLanguages) fs).1,
        events := regs.map (fun r => Event.registered r.2) ++
          (processPairs rosetta options
            (runPairs (jsMapKeys assemblyLocations) targetLanguages) fs).2.1 ++
          [Event.printedDiagnostics],
        error := if rosetta.hasErrors && options.strict then some strictError else none } := by
    rw [hout]
    simp only [hok]
  have hcreg : (regs.map (fun r => Event.registered r.2)).count Event.printedDiagnostics = 0 := by
    rw [List.count_eq_zero]
    intro hm
    obtain ⟨r, _, heq⟩ := List.mem_map.mp hm
    cases heq
  have hcloop : ((processPairs rosetta options
      (runPairs (jsMapKeys assemblyLocations) targetLanguages) fs).2.1).count
        Event.printedDiagnostics = 0 := by
    rw [List.count_eq_zero]
    intro hm
    rcases processPairs_events_shape rosetta options
        (runPairs (jsMapKeys assemblyLocations) targetLanguages) fs _ hm with
      ⟨d, l, a, heq⟩ | ⟨q, heq⟩ <;> cases heq
  refine ⟨?_, ?_, ?_, ?_, ?_⟩
  · cases hhe : rosetta.hasErrors <;> cases hst : options.strict <;>
      simp [hrun, hhe, hst]
  · rw [hrun]
  · rw [hrun]
    simp only [List.count_append, hcreg, hcloop]
    simp
  · rw [hrun]
    exact ⟨_, rfl⟩
  · intro pr hpr
    rw [hrun]
    exact List.mem_append_left _ (List.mem_append_right _
      (processPairs_complete rosetta options _ fs hok pr hpr))

/-- Witness for C8 at a concrete one-directory, one-language run. -/
theorem diagnostics_printed_once_strict_mode_spec_witness :
    ((transliterateAssembly nullRosetta ["pkg"] ["python"] {}
        [(asmPath "pkg", { name := "pkg" })]).error = some strictError ↔
      TransliterateAssemblyOptions.strict {} = true ∧ nullRosetta.hasErrors = true)
    ∧ (transliterateAssembly nullRosetta ["pkg"] ["python"] {}
        [(asmPath "pkg", { name := "pkg" })]).fs =
      (processPairs nullRosetta {} (runPairs (jsMapKeys ["pkg"]) ["python"])
        [(asmPath "pkg", { name := "pkg" })]).1
    ∧ (transliterateAssembly nullRosetta ["pkg"] ["python"] {}
        [(asmPath "pkg", { name := "pkg" })]).events.count Event.printedDiagnostics = 1
    ∧ (∃ pre, (transliterateAssembly nullRosetta ["pkg"] ["python"] {}
        [(asmPath "pkg", { name := "pkg" })]).events = pre ++ [Event.printedDiagnostics])
    ∧ (∀ pr ∈ runPairs (jsMapKeys ["pkg"]) ["python"],
        Event.wroteOutput (outPath pr.1 pr.2) ∈
          (transliterateAssembly nullRosetta ["pkg"] ["python"] {}
            [(asmPath "pkg", { name := "pkg" })]).events) :=
  diagnostics_printed_once_strict_mode_spec nullRosetta {} ["pkg"] ["python"]
    [(asmPath "pkg", { name := "pkg" })] [({ name := "pkg" }, "pkg")] rfl rfl

/-- C9: for every type, whatever its kind, the walker applies the
translation callback to the own top-level Docs node of the type before any
kind-specific dispatch — the docs field of the result always equals the
translated docs, and for a type of unsupported kind the type-level Docs is
translated even though the fatal error is raised. -/
theorem type_docs_translated_first_spec (rosetta : Rosetta)
    (language workingDirectory : String) (loose : Bool) (t : JsiiType) :
    ((transliterateType rosetta language workingDirectory loose t).1).docs =
      transliterateDocs rosetta language workingDirectory loose t.docs
    ∧ (t.kind ≠ TypeKindClass → t.kind ≠ TypeKindInterface → t.kind ≠ TypeKindEnum →
        (transliterateType rosetta language workingDirectory loose t).2 =
          some (.thrown ("Unsupported type kind: " ++ t.kind))
        ∧ ((transliterateType rosetta language workingDirectory loose t).1).docs =
          transliterateDocs rosetta language workingDirectory loose t.docs) := by
  refine ⟨transliterateType_docs_eq rosetta language workingDirectory loose t, ?_⟩
  intro h1 h2 h3
  rw [transliterateType_unsupported_eq rosetta language workingDirectory loose t h1 h2 h3]
  exact ⟨rfl, rfl⟩

/-- Witness for C9 at a concrete unsupported-kind type. -/
theorem type_docs_translated_first_spec_witness :
    (transliterateType (constRosetta { language := "go", source := "G", didCompile := false })
        "go" "pkg" false { kind := "datatype", docs := some { «example» := some "d" } }).2 =
      some (.thrown ("Unsupported type kind: " ++ "datatype")) :=
  ((type_docs_translated_first_spec
      (constRosetta { language := "go", source := "G", didCompile := false })
      "go" "pkg" false
      { kind := "datatype", docs := some { «example» := some "d" } }).2
    (by decide) (by decide) (by decide)).1

/-- C10: for an Enum type with an absent member collection the walker fails
with a runtime TypeError (the collection is not defaulted to empty),
whereas absent method, parameter and property collections on Class and
Interface types are treated as empty: no error is raised and the optional
collections are mapped in place, `none` staying `none`. -/
theorem enum_members_undefined_spec (rosetta : Rosetta)
    (language workingDirectory : String) (loose : Bool) (t : JsiiType) :
    (t.kind = TypeKindEnum → t.members = none →
      transliterateType rosetta language workingDirectory loose t =
        ({ t with docs := transliterateDocs rosetta language workingDirectory loose t.docs },
         some (.typeError "type.members is not iterable")))
    ∧ (t.kind = TypeKindClass ∨ t.kind = TypeKindInterface →
        (transliterateType rosetta language workingDirectory loose t).2 = none
        ∧ ((transliterateType rosetta language workingDirectory loose t).1).methods =
            t.methods.map (List.map fun m =>
              { m with
                docs := transliterateDocs rosetta language workingDirectory loose m.docs,
                parameters := m.parameters.map (List.map fun p =>
                  { p with docs := transliterateDocs rosetta language workingDirectory loose p.docs }) })
        ∧ ((transliterateType rosetta language workingDirectory loose t).1).properties =
            t.properties.map (List.map fun p =>
              { p with docs := transliterateDocs rosetta language workingDirectory loose p.docs })) := by
  constructor
  · intro hk hm
    exact transliterateType_enum_none_eq rosetta language workingDirectory loose t hk hm
  · intro hk
    rcases hk with hk | hk
    · rw [transliterateType_class_eq rosetta language workingDirectory loose t hk]
      exact ⟨rfl, rfl, rfl⟩
    · rw [transliterateType_interface_eq rosetta language workingDirectory loose t hk]
      exact ⟨rfl, rfl, rfl⟩

/-- Witness for C10 at a concrete enum without a member collection. -/
theorem enum_members_undefined_spec_witness :
    transliterateType nullRosetta "python" "pkg" false { kind := "enum" } =
      ({ kind := "enum" }, some (.typeError "type.members is not iterable")) :=
  ((enum_members_undefined_spec nullRosetta "python" "pkg" false { kind := "enum" }).1
    rfl rfl).trans (by decide)

end Transliterate
